import Mathlib

/-!
Shallow embedding of the LogiQDominicus signals engine (Python) and proofs
about it.  Each section embeds one region of the source:

* `src/signals-engine/ai/featurize.py` — opening-range columns and the
  breakout / retest flags of `make_features`, and `label_forward_returns`;
* `src/signals-engine/strategies/orb_ema.py` — `opening_range` and
  `break_and_retest`;
* `src/signals-engine/run_swing.py` — the scoring decision (heuristic vs
  model) and the per-candidate entry/stop/target construction of `main`;
* `src/signals-engine/generate_signals.py` — `_flatten`,
  `make_entry_stop_targets` and the sort/trim of `main`;
* `src/signals-engine/make_demo_feeds.py` — `write_if_empty`;
* `src/signals-engine/train_ai.py` — `label_forward_up`;
* the backup variants' RSI block (`add_indicators`).

Prices, ratios and scores are modelled as `ℚ` (the Python code computes in
binary floating point; every claim below is about order/branch structure,
not about rounding of floats, so exact rationals are the faithful reading).
Missing values (pandas `NaN`) are modelled as `Option`.
-/

namespace SigEng

/-- One price bar.  `date` is the bar's calendar-session key (the local date
pandas derives from the timestamp index in `make_features`); `high`, `low`,
`close` are the price fields the opening-range logic reads. -/
structure Bar where
  date : ℕ
  high : ℚ
  low : ℚ
  close : ℚ
deriving DecidableEq, Repr

/-- Session lookup of `make_features` (`ai/featurize.py`):
`d.groupby('_d')['high'].transform('first')` broadcasts to every bar the
first bar (in frame order) of its calendar date.  `opening_range` in
`strategies/orb_ema.py` does the same via `groupby('date').head(1)` —
note its `orb_min` parameter is never used. -/
def firstOfDate (bars : List Bar) (d : ℕ) : Option Bar :=
  bars.find? (fun b => b.date = d)

/-- Column `orb_high` of `make_features`: the `high` of the first bar of the
session containing bar `i` (`transform('first')`). -/
def orbHigh (bars : List Bar) (i : ℕ) : Option ℚ :=
  (bars[i]?).bind (fun b => (firstOfDate bars b.date).map Bar.high)

/-- Column `orb_low` of `make_features`: the `low` of the first bar of the
session containing bar `i`. -/
def orbLow (bars : List Bar) (i : ℕ) : Option ℚ :=
  (bars[i]?).bind (fun b => (firstOfDate bars b.date).map Bar.low)

/-- Maximum of a list of rationals, `none` on the empty list. -/
def maxQ : List ℚ → Option ℚ
  | [] => none
  | x :: xs => some (xs.foldl max x)

/-- Minimum of a list of rationals, `none` on the empty list. -/
def minQ : List ℚ → Option ℚ
  | [] => none
  | x :: xs => some (xs.foldl min x)

/-- Spec-side reading of the opening-range high, written only for the
refinement comparison: "the maximum of `high` over exactly the first
`orb_bars` bars of that session", broadcast to the bar at position `i`. -/
def orbHighSpecN (n : ℕ) (bars : List Bar) (i : ℕ) : Option ℚ :=
  (bars[i]?).bind (fun b =>
    maxQ (((bars.filter (fun x => x.date = b.date)).take n).map Bar.high))

/-- Spec-side reading of the opening-range low, for the refinement
comparison: minimum of `low` over the first `orb_bars` session bars. -/
def orbLowSpecN (n : ℕ) (bars : List Bar) (i : ℕ) : Option ℚ :=
  (bars[i]?).bind (fun b =>
    minQ (((bars.filter (fun x => x.date = b.date)).take n).map Bar.low))

/-- Column `brk_orb_high` of `make_features`: `(c > orb_high)`. -/
def brkFeat (bars : List Bar) (i : ℕ) : Bool :=
  match bars[i]?, orbHigh bars i with
  | some b, some oh => decide (oh < b.close)
  | _, _ => false

/-- Column `rt_orb_high` of `make_features`: `low` within
`orb_high ± orb_high * 0.0025`.  No breakout condition appears here. -/
def rtFeat (bars : List Bar) (i : ℕ) : Bool :=
  match bars[i]?, orbHigh bars i with
  | some b, some oh =>
      decide (b.low ≤ oh + oh * (25 / 10000)) &&
      decide (oh - oh * (25 / 10000) ≤ b.low)
  | _, _ => false

/-- One row of the frame handed to `break_and_retest`
(`strategies/orb_ema.py`): the level column (`df15[level_col]`), `close`
and `low`. -/
structure ORow where
  level : ℚ
  close : ℚ
  low : ℚ
deriving DecidableEq, Repr

/-- Series `broke_up` of `break_and_retest`: `close > lvl` at row `i`. -/
def brokeUp (rows : List ORow) (i : ℕ) : Bool :=
  match rows[i]? with
  | some r => decide (r.level < r.close)
  | none => false

/-- Tolerance-band test of `break_and_retest`:
`(low <= lvl*(1+tol/100)) & (low >= lvl*(1-tol/100))`. -/
def inRetestBand (tol : ℚ) (r : ORow) : Bool :=
  decide (r.low ≤ r.level * (1 + tol / 100)) &&
  decide (r.level * (1 - tol / 100) ≤ r.low)

/-- Result of `break_and_retest` at row `i`:
`(broke_up.shift(1).fillna(False)) & retest` — the breakout test is taken
on the immediately preceding row (`False` on row 0). -/
def breakRetest (tol : ℚ) (rows : List ORow) (i : ℕ) : Bool :=
  (match i with
   | 0 => false
   | j + 1 => brokeUp rows j) &&
  (match rows[i]? with
   | some r => inRetestBand tol r
   | none => false)

/-- Two bars of one session used by the C1 counterexample: the second bar's
high (12) exceeds the first bar's high (10), and its low (4) undercuts the
first bar's low (5). -/
def exSessionBars : List Bar :=
  [⟨0, 10, 5, 7⟩, ⟨0, 12, 4, 6⟩]

/-- Three bars over two sessions used by the C1 witness. -/
def exTwoSessionBars : List Bar :=
  [⟨0, 5, 1, 2⟩, ⟨0, 6, 2, 3⟩, ⟨1, 7, 3, 4⟩]

/-- Two rows used by the C2 witness: row 0 closes above its level (a
breakout) and row 1's low returns to the level, inside the band. -/
def exRetestRows : List ORow :=
  [⟨100, 101, 100⟩, ⟨100, 90, 100⟩]

/-- Single flat bar used by the C2 counterexample: `high = low = close`,
so the bar's low sits exactly on the opening-range high. -/
def exFlatBar : List Bar :=
  [⟨0, 100, 100, 100⟩]

lemma find?_map_eq_take_one_max (f : Bar → ℚ) (p : Bar → Bool) :
    ∀ l : List Bar,
      (l.find? p).map f = maxQ (((l.filter p).take 1).map f) := by
  intro l
  induction l with
  | nil => rfl
  | cons b t ih =>
      by_cases hb : p b
      · simp [List.find?, hb, List.filter, maxQ]
      · simpa [List.find?, hb, List.filter] using ih

lemma find?_map_eq_take_one_min (f : Bar → ℚ) (p : Bar → Bool) :
    ∀ l : List Bar,
      (l.find? p).map f = minQ (((l.filter p).take 1).map f) := by
  intro l
  induction l with
  | nil => rfl
  | cons b t ih =>
      by_cases hb : p b
      · simp [List.find?, hb, List.filter, minQ]
      · simpa [List.find?, hb, List.filter] using ih

/-- C1 (amended): the opening-range columns of `make_features` equal the
max high / min low over exactly the first ONE bar of the session — the
configured opening-range bar count is ignored by the code — and the values
are the same on every bar of the session. -/
theorem c1_opening_range_is_first_bar (bars : List Bar) (i j : ℕ) (bi bj : Bar)
    (hi : bars[i]? = some bi) (hj : bars[j]? = some bj)
    (hdate : bi.date = bj.date) :
    orbHigh bars i = orbHighSpecN 1 bars i ∧
    orbLow bars i = orbLowSpecN 1 bars i ∧
    orbHigh bars i = orbHigh bars j ∧
    orbLow bars i = orbLow bars j := by
  refine ⟨?_, ?_, ?_, ?_⟩
  · simp [orbHigh, orbHighSpecN, hi, firstOfDate, find?_map_eq_take_one_max]
  · simp [orbLow, orbLowSpecN, hi, firstOfDate, find?_map_eq_take_one_min]
  · simp [orbHigh, hi, hj, firstOfDate, hdate]
  · simp [orbLow, hi, hj, firstOfDate, hdate]

/-- Witness for `c1_opening_range_is_first_bar` at a concrete two-session
series, instantiated at two bars of the first session. -/
theorem c1_opening_range_is_first_bar_witness :
    orbHigh exTwoSessionBars 1 = orbHighSpecN 1 exTwoSessionBars 1 ∧
    orbLow exTwoSessionBars 1 = orbLowSpecN 1 exTwoSessionBars 1 ∧
    orbHigh exTwoSessionBars 1 = orbHigh exTwoSessionBars 0 ∧
    orbLow exTwoSessionBars 1 = orbLow exTwoSessionBars 0 :=
  c1_opening_range_is_first_bar exTwoSessionBars 1 0 ⟨0, 6, 2, 3⟩ ⟨0, 5, 1, 2⟩
    (by decide) (by decide) rfl

/-- Counterexample to C1 as stated: with `orb_bars = 2`, the claim requires
the opening-range high at bar 1 to be the max high of the first two session
bars (12) and the low to be their min (4), but the code broadcasts the first
bar's high (10) and low (5). -/
theorem c1_counterexample :
    orbHigh exSessionBars 1 = some 10 ∧
    orbHighSpecN 2 exSessionBars 1 = some 12 ∧
    orbLow exSessionBars 1 = some 5 ∧
    orbLowSpecN 2 exSessionBars 1 = some 4 := by
  refine ⟨?_, ?_, ?_, ?_⟩ <;>
    simp [orbHigh, orbLow, orbHighSpecN, orbLowSpecN, exSessionBars,
      firstOfDate, maxQ, minQ] <;> norm_num

/-- C2 (amended): for the `break_and_retest` flag of
`strategies/orb_ema.py`, a true retest at row `i` forces the breakout flag
to hold on the immediately preceding row, so the retest flag is false on
every row at or before the first breakout row.  (The `rt_orb_high` flag of
`ai/featurize.py` carries no such precedence — see `c2_counterexample`.) -/
theorem c2_retest_requires_prior_breakout (tol : ℚ) (rows : List ORow)
    (i : ℕ) (h : breakRetest tol rows i = true) :
    ∃ j, i = j + 1 ∧ brokeUp rows j = true := by
  cases i with
  | zero => simp [breakRetest] at h
  | succ j =>
      refine ⟨j, rfl, ?_⟩
      simp only [breakRetest, Bool.and_eq_true] at h
      exact h.1

/-- Witness for `c2_retest_requires_prior_breakout` at a concrete breakout
followed by a retest of the level. -/
theorem c2_retest_requires_prior_breakout_witness :
    ∃ j, 1 = j + 1 ∧ brokeUp exRetestRows j = true :=
  c2_retest_requires_prior_breakout (1 / 4) exRetestRows 1 (by
    simp [breakRetest, brokeUp, inRetestBand, exRetestRows]
    norm_num)

/-- Counterexample to C2 as stated: on a single flat bar the featurize
retest flag `rt_orb_high` is already true at row 0 while no row of the
series (there is only row 0) has a true breakout flag — so the retest flag
is true on a bar that is not strictly after any breakout bar. -/
theorem c2_counterexample :
    rtFeat exFlatBar 0 = true ∧ brkFeat exFlatBar 0 = false := by
  constructor
  · simp [rtFeat, orbHigh, exFlatBar, firstOfDate]
    norm_num
  · simp [brkFeat, orbHigh, exFlatBar, firstOfDate]

/-- Feature-name list `FEATS_SWING` of `run_swing.py` (lines 27–32). -/
def FEATS_SWING : List String :=
  ["ret1", "ret3", "ret5", "ema10", "ema20", "ema200",
   "ema_slope20", "ema_dist20", "rsi", "atr"]

/-- Supplied classifier, abstracted to the probability it would return for
the scored bar (`model.predict_proba(X)[0, 1]`). -/
structure SwingModel where
  predictProba : ℚ
deriving DecidableEq, Repr

/-- Payload of `models/model_swing.pkl` as read by `run_swing.main`:
`model_pack.get("model")` and `model_pack.get("feats", [])`; either entry
may be absent (`none` / the empty list). -/
structure ModelPack where
  model : Option SwingModel
  feats : List String
deriving DecidableEq, Repr

/-- Heuristic probability of `run_swing.main` (line 139): `0.65` when the
last bar has `close > ema20 > ema200` and `45 <= rsi <= 70`, else `0.4`. -/
def heurProbaSwing (lastClose ema20v ema200v rsiv : ℚ) : ℚ :=
  if ema20v < lastClose ∧ ema200v < ema20v ∧ 45 ≤ rsiv ∧ rsiv ≤ 70
  then 13 / 20 else 2 / 5

/-- Scoring decision of `run_swing.main` (lines 140–151): start from the
heuristic probability; overwrite it with the model's output only when a
model pack is loaded, holds a (truthy) model, and its declared feature list
is truthy (nonempty) and equals `FEATS_SWING` (`feats == FEATS_SWING`).
The Bool records whether the model was invoked.  The Python body runs in
`try/except` whose handler restores the heuristic value; the pure model
needs no exception path. -/
def scoreProba (pack : Option ModelPack) (heurProba : ℚ) : ℚ × Bool :=
  match pack with
  | none => (heurProba, false)
  | some p =>
      match p.model with
      | none => (heurProba, false)
      | some m =>
          if p.feats ≠ [] ∧ p.feats = FEATS_SWING then (m.predictProba, true)
          else (heurProba, false)

/-- Mismatching model pack used by the C3 witness: it declares a single
feature name, not the engine's ten. -/
def exMismatchPack : ModelPack :=
  ⟨some ⟨9 / 10⟩, ["ret1"]⟩

/-- C3 (confirmed): the model is invoked only when its declared feature
list equals `FEATS_SWING` exactly (same names, same order); for any pack
whose list differs the returned probability is the heuristic probability
and the model is not invoked. -/
theorem c3_model_invoked_only_on_exact_feats (pack : Option ModelPack)
    (lastClose ema20v ema200v rsiv : ℚ) :
    ((scoreProba pack (heurProbaSwing lastClose ema20v ema200v rsiv)).2 = true →
      ∃ p, pack = some p ∧ p.feats = FEATS_SWING) ∧
    (∀ p, pack = some p → p.feats ≠ FEATS_SWING →
      scoreProba pack (heurProbaSwing lastClose ema20v ema200v rsiv) =
        (heurProbaSwing lastClose ema20v ema200v rsiv, false)) := by
  constructor
  · intro h
    match hp : pack with
    | none => simp [scoreProba] at h
    | some p =>
        refine ⟨p, rfl, ?_⟩
        match hm : p.model with
        | none => simp [scoreProba, hm] at h
        | some m =>
            by_cases hf : p.feats ≠ [] ∧ p.feats = FEATS_SWING
            · exact hf.2
            · simp [scoreProba, hm, if_neg hf] at h
  · intro p hp hf
    subst hp
    match hm : p.model with
    | none => simp [scoreProba, hm]
    | some m => simp [scoreProba, hm, hf]

/-- Witness for `c3_model_invoked_only_on_exact_feats`: a pack declaring
`["ret1"]` yields the heuristic value with the model not invoked. -/
theorem c3_model_invoked_only_on_exact_feats_witness :
    scoreProba (some exMismatchPack) (heurProbaSwing 101 100 99 55) =
      (heurProbaSwing 101 100 99 55, false) :=
  (c3_model_invoked_only_on_exact_feats (some exMismatchPack) 101 100 99 55).2
    exMismatchPack rfl (by simp [exMismatchPack, FEATS_SWING])

/-- Function `label_forward_up` of `train_ai.py` (lines 83–85), identical
in shape to `label_forward_returns` of `ai/featurize.py`:
`fwd = close.pct_change(horizon).shift(-horizon); (fwd > 0).astype(int)`.
At position `t` the shifted forward return is `close[t+h]/close[t] - 1`
when both closes exist, else `NaN`; `NaN > 0` is `False`, so `.astype(int)`
assigns 0 there — including on the final `horizon` rows. -/
def labelForwardUp (closes : List ℚ) (horizon : ℕ) : List ℕ :=
  (List.range closes.length).map (fun t =>
    match closes[t]?, closes[t + horizon]? with
    | some c0, some ch => if 0 < ch / c0 - 1 then 1 else 0
    | _, _ => 0)

/-- Two-bar close series used by the C4 theorems. -/
def exLabelCloses : List ℚ :=
  [1, 2]

/-- C4 (amended): the label list has one entry per input row (no rows are
excluded); the label is 1 exactly when the forward `horizon`-bar percent
return exists and is strictly positive; on the final `horizon` rows, where
that return is undefined, the label is the assigned value 0. -/
theorem c4_label_rule (closes : List ℚ) (h t : ℕ) (ht : t < closes.length) :
    (labelForwardUp closes h).length = closes.length ∧
    ((labelForwardUp closes h)[t]? = some 1 ↔
      ∃ c0 ch, closes[t]? = some c0 ∧ closes[t + h]? = some ch ∧
        0 < ch / c0 - 1) ∧
    (closes[t + h]? = none → (labelForwardUp closes h)[t]? = some 0) := by
  have hlen : (labelForwardUp closes h).length = closes.length := by
    simp [labelForwardUp]
  have hc0 : closes[t]? = some closes[t] := List.getElem?_eq_getElem ht
  have hval : ∀ v : ℕ → ℕ, (((List.range closes.length).map v))[t]? = some (v t) := by
    intro v
    simp [List.getElem?_map, List.getElem?_range, ht]
  refine ⟨hlen, ?_, ?_⟩
  · rw [labelForwardUp, hval]
    cases hch : closes[t + h]? with
    | none => simp [hc0, hch]
    | some ch =>
        by_cases hpos : 0 < ch / closes[t] - 1
        · simp only [hc0, hch, if_pos hpos]
          constructor
          · intro _
            exact ⟨closes[t], ch, rfl, rfl, hpos⟩
          · intro _
            trivial
        · simp only [hc0, hch, if_neg hpos]
          constructor
          · intro hbad
            simp at hbad
          · rintro ⟨c0, ch2, hc0e, hche, hp⟩
            rw [Option.some_inj] at hc0e hche
            subst hc0e
            subst hche
            exact absurd hp hpos
  · intro hnone
    rw [labelForwardUp, hval]
    simp [hc0, hnone]

/-- Witness for `c4_label_rule` at the last row of a two-bar series with
`horizon = 1`: the forward return is undefined there, yet the row is
present and labeled 0. -/
theorem c4_label_rule_witness :
    (labelForwardUp exLabelCloses 1).length = exLabelCloses.length ∧
    ((labelForwardUp exLabelCloses 1)[1]? = some 1 ↔
      ∃ c0 ch, exLabelCloses[1]? = some c0 ∧ exLabelCloses[1 + 1]? = some ch ∧
        0 < ch / c0 - 1) ∧
    (exLabelCloses[1 + 1]? = none → (labelForwardUp exLabelCloses 1)[1]? = some 0) :=
  c4_label_rule exLabelCloses 1 1 (by simp [exLabelCloses])

/-- Counterexample to C4 as stated: for `closes = [1, 2]` and `horizon = 1`
the label series is `[1, 0]` — it still has an entry for the last row,
which is assigned the value 0 instead of being excluded (and `train_ai.main`
attaches this full-length integer column, so `dropna` never removes those
rows on account of the label). -/
theorem c4_counterexample :
    labelForwardUp exLabelCloses 1 = [1, 0] ∧
    (labelForwardUp exLabelCloses 1).length = exLabelCloses.length := by
  constructor
  · simp [labelForwardUp, exLabelCloses, List.range_succ]
  · simp [labelForwardUp]

/-- Plan record appended by `run_swing.main` for one accepted candidate
(lines 170–180), restricted to the fields the claims concern. -/
structure SwingSignal where
  prob : ℚ
  entry : ℚ
  stopPx : ℚ
  target1 : ℚ
  target2 : ℚ
deriving DecidableEq, Repr

/-- Candidate step of `run_swing.main` (lines 158–168) for one symbol that
already passed the probability and filter gates: `price` is the last close,
`e20` the last `ema20`, `low3` the min low of the last three bars; `stop`
is their adverse combination, `risk = price - stop`; reject (`continue`,
modelled as `none`) on `risk <= 0`, build the two targets, reject when
`rr = (t1 - price) / risk` is below `minRR`, else append the plan.
`rnd` models Python `round(x, 4)`; the claims that stipulate exact
arithmetic instantiate `rnd = id`. -/
def swingStep (rnd : ℚ → ℚ) (minRR : ℚ) (proba price e20 low3 : ℚ) :
    Option SwingSignal :=
  let stop := min e20 low3
  let risk := price - stop
  if risk ≤ 0 then none
  else
    let t1 := rnd (price + 1 * risk)
    let t2 := rnd (price + 2 * risk)
    let rr := (t1 - price) / risk
    if rr < minRR then none
    else some ⟨proba, rnd price, rnd stop, t1, t2⟩

/-- Whole-run emission of `run_swing.main`: the symbol loop collects the
step's result for every surviving candidate
(`proba`, `price`, `e20`, `low3`). -/
def swingPipeline (rnd : ℚ → ℚ) (minRR : ℚ)
    (cands : List (ℚ × ℚ × ℚ × ℚ)) : List SwingSignal :=
  cands.filterMap (fun c => swingStep rnd minRR c.1 c.2.1 c.2.2.1 c.2.2.2)

/-- One bar row consumed by `make_entry_stop_targets`
(`generate_signals.py`). -/
structure IRow where
  close : ℚ
  high : ℚ
  low : ℚ
deriving DecidableEq, Repr

/-- Trade direction chosen by `generate_signals.main` from the blended
score's sign. -/
inductive TradeDir
  | long
  | short
deriving DecidableEq, Repr

/-- EWM update of `ewm(span=..., adjust=False).mean()`:
`y_t = (1 - α) y_(t-1) + α x_t`. -/
def ewmStep (α : ℚ) (y x : ℚ) : ℚ :=
  (1 - α) * y + α * x

/-- Last value of `s.ewm(span, adjust=False).mean()` (seed is the first
value of the series), `none` for the empty series. -/
def ewmLast (α : ℚ) : List ℚ → Option ℚ
  | [] => none
  | x :: xs => some (xs.foldl (ewmStep α) x)

/-- Function `make_entry_stop_targets` of `generate_signals.py` (lines
124–136): entry is the last close; stop is `ema20` vs the last-5-bar
extreme on the adverse side; `risk = price - stop` (mirrored for SHORT);
the result always carries three R-multiple targets (1, 1.5, 2) — the
function has NO rejection branch for `risk <= 0` and computes no
risk/reward ratio.  `none` only covers the empty frame, which `main`
excludes before the call.  `rnd` models Python `round(x, 4)`, and
`2 / 21` is `ema(span=20)`'s smoothing factor `2/(span+1)`. -/
def mkEntryStopTargets (rnd : ℚ → ℚ) (rows : List IRow) (dir : TradeDir) :
    Option (ℚ × ℚ × List ℚ) :=
  match rows.getLast?, ewmLast (2 / 21) (rows.map IRow.close),
      minQ ((rows.reverse.take 5).map IRow.low),
      maxQ ((rows.reverse.take 5).map IRow.high) with
  | some lastRow, some e20, some low5, some high5 =>
      let price := lastRow.close
      match dir with
      | TradeDir.long =>
          let stop := min e20 low5
          let risk := price - stop
          some (rnd price, rnd stop,
            [rnd (price + 1 * risk), rnd (price + 3 / 2 * risk),
             rnd (price + 2 * risk)])
      | TradeDir.short =>
          let stop := max e20 high5
          let risk := stop - price
          some (rnd price, rnd stop,
            [rnd (price - 1 * risk), rnd (price - 3 / 2 * risk),
             rnd (price - 2 * risk)])
  | _, _, _, _ => none

/-- Row appended by `generate_signals.main` (lines 169–179) — emission is
unconditional once a plan exists. -/
structure IntradayRow where
  symbol : String
  score : ℚ
  entry : ℚ
  stopPx : ℚ
  targets : List ℚ
deriving DecidableEq, Repr

/-- Per-symbol emission of `generate_signals.main` (lines 164–179): build
the plan and append the row; there is no rejection between the two. -/
def intradayStep (rnd : ℚ → ℚ) (sym : String) (score : ℚ)
    (rows : List IRow) (dir : TradeDir) : Option IntradayRow :=
  (mkEntryStopTargets rnd rows dir).map (fun p => ⟨sym, score, p.1, p.2.1, p.2.2⟩)

/-- Single flat bar used by the C5 counterexample: `close = high = low`,
so entry, stop and every target coincide. -/
def exFlatIRows : List IRow :=
  [⟨100, 100, 100⟩]

/-- C5 (amended): the swing pipeline's candidate step (`run_swing.main`)
never emits a plan whose risk `price - stop` is `<= 0`, and never one whose
first-target risk/reward ratio, as computed by the acceptance check, is
below the configured minimum; the intraday builder
(`make_entry_stop_targets` / `generate_signals.main`) performs neither
check — see `c5_counterexample`. -/
theorem c5_swing_step_risk_and_rr (rnd : ℚ → ℚ) (minRR proba price e20 low3 : ℚ)
    (s : SwingSignal) (h : swingStep rnd minRR proba price e20 low3 = some s) :
    0 < price - min e20 low3 ∧
    minRR ≤ (s.target1 - price) / (price - min e20 low3) := by
  simp only [swingStep, one_mul] at h
  by_cases hr : price - min e20 low3 ≤ 0
  · simp [hr] at h
  · refine ⟨lt_of_not_ge hr, ?_⟩
    rw [if_neg hr] at h
    by_cases hrr : (rnd (price + (price - min e20 low3)) - price) /
        (price - min e20 low3) < minRR
    · rw [if_pos hrr] at h
      exact absurd h (by simp)
    · rw [if_neg hrr] at h
      rw [Option.some_inj] at h
      subst h
      exact le_of_not_gt hrr

/-- Witness for `c5_swing_step_risk_and_rr` at a concrete accepted
candidate (`rnd = id`, `minRR = 1`, price 101, ema20 100, 3-bar low 99). -/
theorem c5_swing_step_risk_and_rr_witness :
    0 < (101 : ℚ) - min 100 99 ∧
    (1 : ℚ) ≤ ((⟨13 / 20, 101, 99, 103, 105⟩ : SwingSignal).target1 - 101) /
      (101 - min 100 99) :=
  c5_swing_step_risk_and_rr id 1 (13 / 20) 101 100 99 ⟨13 / 20, 101, 99, 103, 105⟩
    (by simp [swingStep]
        norm_num)

/-- Counterexample to C5 as stated: on a single flat bar the intraday
builder emits a row with `entry = stop = 100` (risk exactly 0) and all
targets equal to the entry; nothing on this path rejects it. -/
theorem c5_counterexample :
    intradayStep id "SPY" 0 exFlatIRows TradeDir.long =
      some ⟨"SPY", 0, 100, 100, [100, 100, 100]⟩ := by
  simp [intradayStep, mkEntryStopTargets, ewmLast, ewmStep, minQ, maxQ,
    exFlatIRows]

/-- C6 (confirmed): under exact arithmetic (`rnd = id`) the first target of
the swing step is `entry + 1.0 * risk`, so the acceptance ratio
`(t1 - price)/risk` equals exactly 1 for every candidate with positive
risk; hence whenever the configured minimum exceeds 1 (the default
`swing_min_rr` is 1.4) every candidate is rejected and the pipeline emits
the empty list. -/
theorem c6_exact_rr_one_swing_empty (minRR : ℚ) (hgt : 1 < minRR) :
    (∀ price risk : ℚ, 0 < risk → ((price + 1 * risk) - price) / risk = 1) ∧
    (∀ proba price e20 low3 : ℚ, swingStep id minRR proba price e20 low3 = none) ∧
    (∀ cands, swingPipeline id minRR cands = []) := by
  have hstep : ∀ proba price e20 low3 : ℚ,
      swingStep id minRR proba price e20 low3 = none := by
    intro proba price e20 low3
    unfold swingStep
    by_cases hr : price - min e20 low3 ≤ 0
    · simp [hr]
    · have hrpos : 0 < price - min e20 low3 := lt_of_not_ge hr
      have hone : (price - min e20 low3) / (price - min e20 low3) = 1 :=
        div_self (ne_of_gt hrpos)
      simp [hr, hone, hgt]
  refine ⟨?_, hstep, ?_⟩
  · intro price risk hrisk
    simp only [one_mul, add_sub_cancel_left]
    exact div_self (ne_of_gt hrisk)
  · intro cands
    unfold swingPipeline
    exact List.filterMap_eq_nil_iff.mpr (fun c _ => hstep c.1 c.2.1 c.2.2.1 c.2.2.2)

/-- Witness for `c6_exact_rr_one_swing_empty` at the default
`swing_min_rr = 1.4` and a concrete candidate. -/
theorem c6_exact_rr_one_swing_empty_witness :
    ((100 : ℚ) + 1 * 5 - 100) / 5 = 1 ∧
    swingStep id (7 / 5) (13 / 20) 101 100 99 = none ∧
    swingPipeline id (7 / 5) [(13 / 20, 101, 100, 99)] = [] :=
  ⟨(c6_exact_rr_one_swing_empty (7 / 5) (by norm_num)).1 100 5 (by norm_num),
   (c6_exact_rr_one_swing_empty (7 / 5) (by norm_num)).2.1 (13 / 20) 101 100 99,
   (c6_exact_rr_one_swing_empty (7 / 5) (by norm_num)).2.2 [(13 / 20, 101, 100, 99)]⟩

/-- Accepted row as seen by the final sort of `generate_signals.main`:
symbol plus blended score (the other fields do not affect ordering). -/
structure ScoredRow where
  symbol : String
  score : ℚ
deriving DecidableEq, Repr

/-- Stable descending insertion by `abs(score)`: the inserted element
precedes exactly the ties and the strictly smaller keys, as Python's
stable `list.sort(key=lambda r: abs(r["score"]), reverse=True)` orders a
prefix element relative to a sorted suffix. -/
def insertByAbsDesc (x : ScoredRow) : List ScoredRow → List ScoredRow
  | [] => [x]
  | y :: ys =>
      if |y.score| ≤ |x.score| then x :: y :: ys
      else y :: insertByAbsDesc x ys

/-- Stable sort by `abs(score)` descending (insertion sort, which computes
the same list as any stable descending sort, hence as Python's Timsort
under this key). -/
def sortByAbsDesc : List ScoredRow → List ScoredRow
  | [] => []
  | x :: xs => insertByAbsDesc x (sortByAbsDesc xs)

/-- Assembly of `generate_signals.main` (lines 181–189):
`rows.sort(key=lambda r: abs(r["score"]), reverse=True)` followed by the
trim `rows[:25]` (applied only to a nonempty list, but `[][:25] = []`). -/
def assembleIntraday (rows : List ScoredRow) : List ScoredRow :=
  (sortByAbsDesc rows).take 25

/-- Tied rows used by the C7 counterexample, in the engine's symbol
iteration order: SPY before QQQ, both with score 0. -/
def exTieRows : List ScoredRow :=
  [⟨"SPY", 0⟩, ⟨"QQQ", 0⟩]

lemma mem_insertByAbsDesc {a x : ScoredRow} {l : List ScoredRow} :
    a ∈ insertByAbsDesc x l ↔ a = x ∨ a ∈ l := by
  induction l with
  | nil => simp [insertByAbsDesc]
  | cons y ys ih =>
      rw [insertByAbsDesc]
      by_cases h : |y.score| ≤ |x.score|
      · rw [if_pos h]
        simp [or_comm, or_left_comm]
      · rw [if_neg h]
        simp [ih]
        tauto

lemma pairwise_insertByAbsDesc (x : ScoredRow) (l : List ScoredRow)
    (hl : l.Pairwise (fun a b => |b.score| ≤ |a.score|)) :
    (insertByAbsDesc x l).Pairwise (fun a b => |b.score| ≤ |a.score|) := by
  induction l with
  | nil => simp [insertByAbsDesc]
  | cons y ys ih =>
      rw [List.pairwise_cons] at hl
      rw [insertByAbsDesc]
      by_cases hxy : |y.score| ≤ |x.score|
      · rw [if_pos hxy, List.pairwise_cons]
        refine ⟨?_, List.pairwise_cons.mpr hl⟩
        intro a ha
        rcases List.mem_cons.mp ha with h | h
        · subst h
          exact hxy
        · exact le_trans (hl.1 a h) hxy
      · rw [if_neg hxy, List.pairwise_cons]
        refine ⟨?_, ih hl.2⟩
        intro a ha
        rcases mem_insertByAbsDesc.mp ha with h | h
        · subst h
          exact le_of_not_ge hxy
        · exact hl.1 a h

/-- C7 (amended): the assembled output of `generate_signals.main` is
sorted by `abs(score)` descending; ties keep the input (symbol-iteration)
order of the stable sort, not lexical symbol order, and `run_swing.main`
applies no sort at all to its output list. -/
theorem c7_assemble_sorted_desc (rows : List ScoredRow) :
    (assembleIntraday rows).Pairwise (fun a b => |b.score| ≤ |a.score|) := by
  have hs : ∀ l : List ScoredRow,
      (sortByAbsDesc l).Pairwise (fun a b => |b.score| ≤ |a.score|) := by
    intro l
    induction l with
    | nil => simp [sortByAbsDesc]
    | cons x xs ih => exact pairwise_insertByAbsDesc x _ ih
  exact List.Pairwise.sublist (List.take_sublist 25 _) (hs rows)

/-- Counterexample to C7 as stated: two accepted rows tie at score 0; the
assembled list keeps them in input order (SPY before QQQ), although
lexically QQQ precedes SPY — so equal-score Signals do not appear in
lexical symbol order. -/
theorem c7_counterexample :
    assembleIntraday exTieRows = [⟨"SPY", 0⟩, ⟨"QQQ", 0⟩] ∧
    ("QQQ" : String) < "SPY" := by
  constructor
  · simp [assembleIntraday, sortByAbsDesc, insertByAbsDesc, exTieRows]
  · rw [String.lt_iff_toList_lt]
    decide

/-- Function `write_if_empty` of `make_demo_feeds.py`.  `current` is the
parsed contents of the feed file (`none` when the file is missing — the
`not path.exists()` branch); the demo `data` is written, and `True`
returned, exactly when the file is missing or parses to an empty (falsy)
list.  The returned list is the feed's content after the call. -/
def writeIfEmpty {α : Type} (current : Option (List α)) (data : List α) :
    List α × Bool :=
  match current with
  | none => (data, true)
  | some [] => (data, true)
  | some (x :: xs) => (x :: xs, false)

/-- C8 (confirmed): running `make_demo_feeds` after the generator writes
the fallback set if and only if the accepted set is strictly empty (or the
feed file is missing); an empty accepted set yields exactly the fallback
data, and a non-empty accepted set is never replaced or augmented. -/
theorem c8_fallback_iff_empty {α : Type} (accepted demo : List α) :
    ((writeIfEmpty (some accepted) demo).2 = true ↔ accepted = []) ∧
    (accepted = [] → (writeIfEmpty (some accepted) demo).1 = demo) ∧
    (accepted ≠ [] → (writeIfEmpty (some accepted) demo).1 = accepted) ∧
    (writeIfEmpty (none : Option (List α)) demo = (demo, true)) := by
  cases accepted <;> simp [writeIfEmpty]

/-- Witness for `c8_fallback_iff_empty`: an empty feed is replaced by the
demo data, a non-empty feed is kept verbatim. -/
theorem c8_fallback_iff_empty_witness :
    (writeIfEmpty (some ([] : List ℕ)) [7]).1 = [7] ∧
    (writeIfEmpty (some [5]) ([7] : List ℕ)).1 = [5] :=
  ⟨(c8_fallback_iff_empty ([] : List ℕ) [7]).2.1 rfl,
   (c8_fallback_iff_empty [5] ([7] : List ℕ)).2.2.1 (by simp)⟩

/-- Column renaming of `_flatten` (`generate_signals.py`, single-level
branch, lines 46–54): `rename_map.get(c, c).lower()` — the Yahoo names map
to canonical ones ("Adj Close" is the adjusted-close alias for "close"),
anything else is lowercased.  The later capitalized-name fallback loop
(lines 52–54) is dead after this lowercasing rename. -/
def renameCol (c : String) : String :=
  if c = "Open" then "open"
  else if c = "High" then "high"
  else if c = "Low" then "low"
  else if c = "Close" then "close"
  else if c = "Adj Close" then "close"
  else if c = "Volume" then "volume"
  else c.toLower

/-- Raw tabular bar source: column names plus row-major cells, `none`
standing for a missing / non-numeric value (`pd.to_numeric(errors="coerce")`
makes those `NaN`). -/
structure RawFrame where
  cols : List String
  rows : List (List (Option ℚ))
deriving DecidableEq, Repr

/-- Canonical output row of `_flatten`: `close` is always present because
rows lacking it are dropped (`dropna(subset=["close"])`); the other
columns stay optional. -/
structure CRow where
  openPx : Option ℚ
  highPx : Option ℚ
  lowPx : Option ℚ
  closePx : ℚ
  volumePx : Option ℚ
deriving DecidableEq, Repr

/-- Function `_flatten` of `generate_signals.py` (lines 27–65, single-level
branch, distinct canonical names): rename the columns, keep the canonical
five, and return the empty frame (modelled as `none`) exactly when `close`
is not among the renamed columns; otherwise keep every row whose close
cell is present.  A name absent from the canonical list yields index
`length`, whose lookup is `none` — matching the column's absence. -/
def flattenFrame (f : RawFrame) : Option (List CRow) :=
  let canon := f.cols.map renameCol
  if "close" ∈ canon then
    some (f.rows.filterMap (fun r =>
      (r[canon.indexOf "close"]?).join.map (fun cv =>
        { openPx := (r[canon.indexOf "open"]?).join
          highPx := (r[canon.indexOf "high"]?).join
          lowPx := (r[canon.indexOf "low"]?).join
          closePx := cv
          volumePx := (r[canon.indexOf "volume"]?).join })))
  else none

/-- Raw frame with high/low/close but no open column, used by the C9
theorems. -/
def exFrameNoOpen : RawFrame :=
  ⟨["High", "Low", "Close"],
   [[some 5, some 1, some 2], [some 5, some 1, none]]⟩

/-- C9 (amended): `_flatten` fails — returning the empty frame, there is
no `SchemaError` anywhere in the code — exactly when `close` cannot be
resolved (the adjusted-close alias accepted); `open`, `high` and `low` are
optional, and on success the output rows are precisely the input rows
whose close cell is present. -/
theorem c9_flatten_requires_close_only (f : RawFrame) :
    ((flattenFrame f).isSome ↔ "close" ∈ f.cols.map renameCol) ∧
    (∀ l, flattenFrame f = some l →
      l.map CRow.closePx =
        f.rows.filterMap (fun r =>
          (r[(f.cols.map renameCol).indexOf "close"]?).join)) := by
  constructor
  · by_cases hc : "close" ∈ f.cols.map renameCol
    · simp [flattenFrame, hc]
    · simp [flattenFrame, hc]
  · intro l hl
    simp only [flattenFrame] at hl
    by_cases hc : "close" ∈ f.cols.map renameCol
    · rw [if_pos hc, Option.some_inj] at hl
      subst hl
      rw [List.map_filterMap]
      congr 1
      funext r
      cases h : (r[(f.cols.map renameCol).indexOf "close"]?).join <;> simp [h]
    · rw [if_neg hc] at hl
      exact absurd hl (by simp)

/-- Witness for `c9_flatten_requires_close_only` on a frame lacking an
open column: flattening succeeds and keeps exactly the row whose close
cell is present. -/
theorem c9_flatten_requires_close_only_witness :
    (flattenFrame exFrameNoOpen).isSome ∧
    [({ openPx := none, highPx := some 5, lowPx := some 1, closePx := 2,
        volumePx := none } : CRow)].map CRow.closePx =
      exFrameNoOpen.rows.filterMap (fun r =>
        (r[(exFrameNoOpen.cols.map renameCol).indexOf "close"]?).join) :=
  ⟨(c9_flatten_requires_close_only exFrameNoOpen).1.mpr (by decide),
   (c9_flatten_requires_close_only exFrameNoOpen).2
     [{ openPx := none, highPx := some 5, lowPx := some 1, closePx := 2,
        volumePx := none }] (by decide)⟩

/-- Counterexample to C9 as stated: the claim requires failure whenever
any of open/high/low/close cannot be resolved, but on a frame with no open
column `_flatten` succeeds (and in fact the code never raises a
`SchemaError` — that exception class exists nowhere). -/
theorem c9_counterexample :
    (flattenFrame exFrameNoOpen).isSome = true ∧
    "open" ∉ exFrameNoOpen.cols.map renameCol := by
  decide

/-- Successive differences `close.diff()` with the leading `NaN` dropped:
entry `i` is `close[i+1] - close[i]`. -/
def deltas : List ℚ → List ℚ
  | [] => []
  | [_] => []
  | x :: y :: t => (y - x) :: deltas (y :: t)

/-- Value trail of `ewm(alpha, adjust=False).mean()` with accumulator `y`:
each output is the current smoothed value. -/
def ewmAux (α : ℚ) (y : ℚ) : List ℚ → List ℚ
  | [] => [y]
  | x :: xs => y :: ewmAux α (ewmStep α y x) xs

/-- Full series of `s.ewm(alpha, adjust=False).mean()`: seeded at the first
element, then `y_t = (1-α) y_(t-1) + α x_t`. -/
def ewmList (α : ℚ) : List ℚ → List ℚ
  | [] => []
  | x :: xs => ewmAux α x xs

/-- Replacement `roll_down.replace(0, 1e-9)` guarding the RSI division. -/
def replaceZero (eps : ℚ) (x : ℚ) : ℚ :=
  if x = 0 then eps else x

/-- RSI block of `add_indicators` (identical in
`generate_signals.backup.py` lines 107–114 and `run_swing.backup.py` lines
45–52): clipped gains/losses of `close.diff()`, Wilder smoothing
`ewm(alpha=1/rsi_len, adjust=False)`, zero losses replaced by `1e-9`, then
`rsi = 100 - 100/(1 + roll_up/roll_down)`.  The list holds the defined
values (the frame's leading `NaN` row is dropped by `dropna`). -/
def rsiList (rsiLen : ℕ) (closes : List ℚ) : List ℚ :=
  let ds := deltas closes
  let up := ds.map (fun t => max t 0)
  let down := ds.map (fun t => max (-t) 0)
  let rollUp := ewmList (1 / (rsiLen : ℚ)) up
  let rollDown := (ewmList (1 / (rsiLen : ℚ)) down).map (replaceZero (1 / 10 ^ 9))
  (rollUp.zip rollDown).map (fun p => 100 - 100 / (1 + p.1 / p.2))

lemma ewmAux_nonneg (α : ℚ) (h0 : 0 ≤ α) (h1 : α ≤ 1) :
    ∀ (l : List ℚ) (y : ℚ), 0 ≤ y → (∀ x ∈ l, 0 ≤ x) →
      ∀ z ∈ ewmAux α y l, 0 ≤ z := by
  intro l
  induction l with
  | nil =>
      intro y hy _ z hz
      simp [ewmAux] at hz
      subst hz
      exact hy
  | cons x xs ih =>
      intro y hy hl z hz
      rw [ewmAux] at hz
      rcases List.mem_cons.mp hz with h | h
      · subst h
        exact hy
      · refine ih (ewmStep α y x) ?_
          (fun a ha => hl a (List.mem_cons_of_mem x ha)) z h
        have hx := hl x (List.mem_cons_self x xs)
        unfold ewmStep
        have h1a : 0 ≤ 1 - α := by linarith
        exact add_nonneg (mul_nonneg h1a hy) (mul_nonneg h0 hx)

lemma ewmList_nonneg (α : ℚ) (h0 : 0 ≤ α) (h1 : α ≤ 1)
    (l : List ℚ) (hl : ∀ x ∈ l, 0 ≤ x) :
    ∀ z ∈ ewmList α l, 0 ≤ z := by
  cases l with
  | nil => simp [ewmList]
  | cons x xs =>
      exact ewmAux_nonneg α h0 h1 xs x (hl x (List.mem_cons_self x xs))
        (fun a ha => hl a (List.mem_cons_of_mem x ha))

lemma replaceZero_pos (x : ℚ) (hx : 0 ≤ x) :
    0 < replaceZero (1 / 10 ^ 9) x := by
  unfold replaceZero
  split
  · norm_num
  · exact lt_of_le_of_ne hx (Ne.symm (by assumption))

/-- C10 (confirmed): with the zero-loss guard in place every divisor in
the RSI computation is strictly positive (no division error is possible,
even on an all-flat series where every gain and loss is zero), and every
defined oscillator value lies in `[0, 100]`. -/
theorem c10_rsi_in_range (rsiLen : ℕ) (closes : List ℚ) (hlen : 1 ≤ rsiLen) :
    (∀ d ∈ (ewmList (1 / (rsiLen : ℚ))
        ((deltas closes).map (fun t => max (-t) 0))).map (replaceZero (1 / 10 ^ 9)),
      0 < d) ∧
    (∀ v ∈ rsiList rsiLen closes, 0 ≤ v ∧ v ≤ 100) := by
  have hr1 : (1 : ℚ) ≤ (rsiLen : ℚ) := by exact_mod_cast hlen
  have hα0 : 0 ≤ 1 / (rsiLen : ℚ) := by positivity
  have hα1 : 1 / (rsiLen : ℚ) ≤ 1 := by
    rw [div_le_one (by linarith)]
    exact hr1
  have hdownpos : ∀ d ∈ (ewmList (1 / (rsiLen : ℚ))
      ((deltas closes).map (fun t => max (-t) 0))).map (replaceZero (1 / 10 ^ 9)),
      0 < d := by
    intro d hd
    rcases List.mem_map.mp hd with ⟨w, hw, rfl⟩
    refine replaceZero_pos w
      (ewmList_nonneg _ hα0 hα1 _ ?_ w hw)
    intro x hx
    rcases List.mem_map.mp hx with ⟨t, _, rfl⟩
    exact le_max_right (-t) 0
  refine ⟨hdownpos, ?_⟩
  intro v hv
  simp only [rsiList] at hv
  rcases List.mem_map.mp hv with ⟨p, hp, rfl⟩
  obtain ⟨hp1, hp2⟩ := List.of_mem_zip hp
  have hru : 0 ≤ p.1 := by
    refine ewmList_nonneg _ hα0 hα1 _ ?_ p.1 hp1
    intro x hx
    rcases List.mem_map.mp hx with ⟨t, _, rfl⟩
    exact le_max_right t 0
  have hrd : 0 < p.2 := hdownpos p.2 hp2
  have hrs : 0 ≤ p.1 / p.2 := div_nonneg hru (le_of_lt hrd)
  have hone : (0 : ℚ) < 1 + p.1 / p.2 := by linarith
  constructor
  · have hle : 100 / (1 + p.1 / p.2) ≤ 100 := by
      rw [div_le_iff₀ hone]
      nlinarith
    linarith
  · have hge : 0 ≤ 100 / (1 + p.1 / p.2) := by positivity
    linarith

/-- Witness for `c10_rsi_in_range` on an all-flat three-bar series with
the default window 14: the oscillator value 0 produced there is in range. -/
theorem c10_rsi_in_range_witness :
    0 ≤ (0 : ℚ) ∧ (0 : ℚ) ≤ 100 :=
  (c10_rsi_in_range 14 [100, 100, 100] (by norm_num)).2 0 (by
    simp [rsiList, deltas, ewmList, ewmAux, ewmStep, replaceZero])

end SigEng
